import Mathlib

/-!
Shallow embedding of `toy_robot_simulator` (src/robot.py, src/main.py) in Lean 4.

The robot stores a 3D integer position and heading vector, exactly as the
Python code stores 3-element numpy arrays.  The Python code rotates the
heading with scipy rotation matrices (`ROT_LEFT`, `ROT_RIGHT`, exact ±90°
rotations about z) applied in floating point and then rounded with
`np.round(·, 0)`; on the integer vectors the robot ever holds, that
composition is exactly the integer rotation `(x, y, z) ↦ (∓y, ±x, z)`, which
is how it is embedded here.  Likewise `np.isclose` comparisons between
integer-valued vectors whose entries differ by at least 1 when they differ
are exact equality, and are embedded as equality.
-/

/-- A 3-component integer vector, embedding the numpy arrays `np.array([x,y,z])`
used by robot.py for positions and heading vectors. -/
structure Vec3 where
  x : Int
  y : Int
  z : Int
deriving DecidableEq, Repr

/-- Componentwise vector addition, embedding `self.pos + self.heading_vector`. -/
def vecAdd (a b : Vec3) : Vec3 := ⟨a.x + b.x, a.y + b.y, a.z + b.z⟩

/-- Embeds `ROT_LEFT.apply` followed by `np.round(·, 0)`: the exact rotation by
+90° about the z axis, `(x, y, z) ↦ (-y, x, z)`. -/
def rotLeftVec (v : Vec3) : Vec3 := ⟨-v.y, v.x, v.z⟩

/-- Embeds `ROT_RIGHT.apply` followed by `np.round(·, 0)`: the exact rotation by
-90° about the z axis, `(x, y, z) ↦ (y, -x, z)`. -/
def rotRightVec (v : Vec3) : Vec3 := ⟨v.y, -v.x, v.z⟩

/-- `TABLE_DIM_MAX` from robot.py. -/
def TABLE_DIM_MAX : Int := 4

/-- `TABLE_DIM_MIN` from robot.py. -/
def TABLE_DIM_MIN : Int := 0

/-- The dict `DIRVECTOR_FROM_COMPASS_DIRECTION` from robot.py; `none` embeds a
`KeyError` on lookup of an unknown key. -/
def DIRVECTOR_FROM_COMPASS_DIRECTION (d : String) : Option Vec3 :=
  if d = "NORTH" then some ⟨0, 1, 0⟩
  else if d = "SOUTH" then some ⟨0, -1, 0⟩
  else if d = "WEST" then some ⟨-1, 0, 0⟩
  else if d = "EAST" then some ⟨1, 0, 0⟩
  else none

/-- `get_compass_direction_from_dirvec` from robot.py.  The shape guard always
passes here (the type is a 3-vector), and the `np.isclose` tests against the
four integer unit vectors are exact equality on the integer vectors arising in
this program. -/
def get_compass_direction_from_dirvec (dirvec : Vec3) : String :=
  if dirvec = ⟨0, 1, 0⟩ then "NORTH"
  else if dirvec = ⟨0, -1, 0⟩ then "SOUTH"
  else if dirvec = ⟨-1, 0, 0⟩ then "WEST"
  else if dirvec = ⟨1, 0, 0⟩ then "EAST"
  else "ERROR"

/-- The mutable state of class `Robot`: `self.pos`, `self.heading_vector`,
`self.placed`. -/
structure Robot where
  pos : Vec3
  heading_vector : Vec3
  placed : Bool
deriving DecidableEq, Repr

/-- `Robot.__init__`: position and heading zero, not placed. -/
def robotInit : Robot := ⟨⟨0, 0, 0⟩, ⟨0, 0, 0⟩, false⟩

/-- `Robot.check_pos_in_bounds`: the raised `ValueError` is caught inside the
method, so its net effect is `False` when x or y is outside
`[TABLE_DIM_MIN, TABLE_DIM_MAX]` and `True` otherwise. -/
def check_pos_in_bounds (pos : Vec3) : Bool :=
  if pos.x < TABLE_DIM_MIN ∨ pos.x > TABLE_DIM_MAX then false
  else if pos.y < TABLE_DIM_MIN ∨ pos.y > TABLE_DIM_MAX then false
  else true

/-- `Robot.place`: returns the success flag and the state after the call.  On a
bounds failure it returns before any assignment; on a `KeyError` for the
heading the exception fires during the dict lookup, before
`self.heading_vector`, `self.pos` or `self.placed` is written, so the state is
unchanged on every failure path. -/
def place (r : Robot) (x y : Int) (compass_direction : String) : Bool × Robot :=
  let place_pos : Vec3 := ⟨x, y, 0⟩
  if ¬ check_pos_in_bounds place_pos then (false, r)
  else
    match DIRVECTOR_FROM_COMPASS_DIRECTION compass_direction with
    | none => (false, r)
    | some hv => (true, { r with heading_vector := hv, pos := place_pos, placed := true })

/-- `Robot.move`: returns the success flag and the state after the call. -/
def move (r : Robot) : Bool × Robot :=
  if ¬ r.placed then (false, r)
  else
    let new_pos := vecAdd r.pos r.heading_vector
    if ¬ check_pos_in_bounds new_pos then (false, r)
    else (true, { r with pos := new_pos })

/-- `Robot.left`: returns the success flag and the state after the call. -/
def left (r : Robot) : Bool × Robot :=
  if ¬ r.placed then (false, r)
  else (true, { r with heading_vector := rotLeftVec r.heading_vector })

/-- `Robot.right`: returns the success flag and the state after the call. -/
def right (r : Robot) : Bool × Robot :=
  if ¬ r.placed then (false, r)
  else (true, { r with heading_vector := rotRightVec r.heading_vector })

/-- The fixed message `Robot.report` returns when the robot is not placed. -/
def notPlacedMsg : String := "Error: please first issue a in-bounds PLACE command"

/-- `Robot.report`: the string the method returns (it never mutates state). -/
def report (r : Robot) : String :=
  if ¬ r.placed then notPlacedMsg
  else
    let direction_str := get_compass_direction_from_dirvec r.heading_vector
    toString r.pos.x ++ "," ++ toString r.pos.y ++ "," ++ direction_str

/-- Splits a character list at every occurrence of `sep`, exactly as Python's
`str.split(sep)` with a one-character separator: empty pieces are kept and the
result is never the empty list (`"".split(" ") == [""]`). -/
def splitOnChar (sep : Char) : List Char → List (List Char)
  | [] => [[]]
  | c :: cs =>
    if c = sep then [] :: splitOnChar sep cs
    else
      match splitOnChar sep cs with
      | [] => [[c]]
      | t :: ts => (c :: t) :: ts

/-- Python `s.split(sep)` for a one-character separator, on strings. -/
def splitStr (sep : Char) (s : String) : List String :=
  (splitOnChar sep s.data).map (fun l => (⟨l⟩ : String))

/-- Whitespace characters stripped by Python's `int(str)` conversion (ASCII
subset). -/
def isPySpace (c : Char) : Bool :=
  c = ' ' ∨ c = '\t' ∨ c = '\n' ∨ c = '\x0d' ∨ c = '\x0b' ∨ c = '\x0c'

/-- Continuation of the Python integer digit grammar after a first digit:
each further character is a digit, or a single underscore followed by a
digit. -/
def pyDigitsRest : List Char → Bool
  | [] => true
  | '_' :: [] => false
  | '_' :: c :: cs => c.isDigit && pyDigitsRest cs
  | c :: cs => c.isDigit && pyDigitsRest cs

/-- The digit grammar of a Python integer literal after the optional sign:
nonempty digits with single underscores allowed only between digits. -/
def pyDigitsOk : List Char → Bool
  | [] => false
  | c :: cs => c.isDigit && pyDigitsRest cs

/-- Numeric value of a digit list, underscores skipped. -/
def pyDigitsVal (l : List Char) : Nat :=
  l.foldl (fun acc c => if c = '_' then acc else acc * 10 + (c.toNat - '0'.toNat)) 0

/-- Python's `int(str)` conversion restricted to ASCII text, as `Option`:
leading/trailing whitespace is stripped, then an optional sign and a digit
group; anything else (in particular `"1.0"`) raises `ValueError`, embedded as
`none`.  Core of the type cast performed by `parse_command_input` for the
`int` parameters of PLACE. -/
def pythonInt (s : String) : Option Int :=
  let core := (s.data.dropWhile isPySpace).reverse.dropWhile isPySpace |>.reverse
  match core with
  | '+' :: ds => if pyDigitsOk ds then some (pyDigitsVal ds : Int) else none
  | '-' :: ds => if pyDigitsOk ds then some (-(pyDigitsVal ds : Int)) else none
  | ds => if pyDigitsOk ds then some (pyDigitsVal ds : Int) else none

/-- A typed parameter produced by the parser: Python `int(p)` or `str(p)`. -/
inductive Param where
  | pint (n : Int)
  | pstr (s : String)
deriving DecidableEq, Repr

/-- A parameter type from the `COMMANDS_AND_ARGS` table: `int` or `str`. -/
inductive PType where
  | tint
  | tstr
deriving DecidableEq, Repr

/-- The table `COMMANDS_AND_ARGS` from robot.py. -/
def COMMANDS_AND_ARGS : List (String × List PType) :=
  [("PLACE", [.tint, .tint, .tstr]),
   ("MOVE", []),
   ("LEFT", []),
   ("RIGHT", []),
   ("REPORT", []),
   ("HELP", []),
   ("EXIT", [])]

/-- Casts one textual parameter to its required type: `int(p)` can raise
`ValueError` (`none`); `str(p)` never fails. -/
def castParam (t : PType) (p : String) : Option Param :=
  match t with
  | .tint => (pythonInt p).map .pint
  | .tstr => some (.pstr p)

/-- Casts all parameters in order, embedding the `for i, p_type in
enumerate(valid_param_types)` loop (the caller has already checked the two
lists have equal length). -/
def castAll : List PType → List String → Option (List Param)
  | [], [] => some []
  | t :: ts, p :: ps =>
    match castParam t p, castAll ts ps with
    | some q, some qs => some (q :: qs)
    | _, _ => none
  | _, _ => none

/-- The body of `Robot.parse_command_input` after the initial
`command_str.split(" ")`, as a function of the resulting token list.  Every
`ValueError` raised in the Python body is caught by the method's own handler,
which returns `("error", [])`.  `split(" ")` never returns an empty list, so
the `[]` case is unreachable and mirrors the code's reliance on that fact. -/
def parse_command_tokens (verb_params_split : List String) : String × List Param :=
  match verb_params_split with
  | [] => ("error", [])
  | verb0 :: rest =>
    match COMMANDS_AND_ARGS.find? (fun c => verb0 = c.1) with
    | none => ("error", [])
    | some (verb, valid_param_types) =>
      match rest with
      | [] =>
        if valid_param_types.length > 0 then ("error", [])
        else (verb, [])
      | pblock :: _ =>
        if valid_param_types.length = 0 then ("error", [])
        else
          let params_found := splitStr ',' pblock
          if params_found.length ≠ valid_param_types.length then ("error", [])
          else
            match castAll valid_param_types params_found with
            | none => ("error", [])
            | some ps => (verb, ps)

/-- `Robot.parse_command_input`.  The method never reads or writes the robot
fields `pos`, `heading_vector`, `placed`, so it is embedded as a pure function
of the input line: parsing cannot alter the robot state. -/
def parse_command_input (command_str : String) : String × List Param :=
  parse_command_tokens (splitStr ' ' command_str)

/-- One state-machine operation, as dispatched by `execute_parsed_command`
(REPORT queries but does not change state). -/
inductive Op where
  | opPlace (x y : Int) (d : String)
  | opMove
  | opLeft
  | opRight
  | opReport
deriving DecidableEq, Repr

/-- The state after running one operation (the success flag dropped). -/
def applyOp (r : Robot) : Op → Robot
  | .opPlace x y d => (place r x y d).2
  | .opMove => (move r).2
  | .opLeft => (left r).2
  | .opRight => (right r).2
  | .opReport => r

/-- States reachable from the freshly constructed robot by any sequence of
operations. -/
inductive Reachable : Robot → Prop where
  | init : Reachable robotInit
  | step (r : Robot) (op : Op) : Reachable r → Reachable (applyOp r op)

/-- The four heading vectors stored in `DIRVECTOR_FROM_COMPASS_DIRECTION`. -/
def headingVecs : List Vec3 := [⟨0, 1, 0⟩, ⟨0, -1, 0⟩, ⟨-1, 0, 0⟩, ⟨1, 0, 0⟩]

/-- A parameter list is well typed for a parameter-type list when the lists
have equal length and each parameter carries the required type. -/
def paramsTyped : List PType → List Param → Prop
  | [], [] => True
  | .tint :: ts, .pint _ :: ps => paramsTyped ts ps
  | .tstr :: ts, .pstr _ :: ps => paramsTyped ts ps
  | _, _ => False

lemma data_append (s t : String) : (s ++ t).data = s.data ++ t.data := by
  cases s; cases t; rfl

lemma check_pos_in_bounds_true {x y z : Int} (hx0 : 0 ≤ x) (hx4 : x ≤ 4)
    (hy0 : 0 ≤ y) (hy4 : y ≤ 4) : check_pos_in_bounds ⟨x, y, z⟩ = true := by
  simp only [check_pos_in_bounds, TABLE_DIM_MIN, TABLE_DIM_MAX]
  split_ifs with h1 h2 <;> first | rfl | omega

lemma check_pos_in_bounds_iff {x y z : Int} :
    check_pos_in_bounds ⟨x, y, z⟩ = true ↔ 0 ≤ x ∧ x ≤ 4 ∧ 0 ≤ y ∧ y ≤ 4 := by
  simp only [check_pos_in_bounds, TABLE_DIM_MIN, TABLE_DIM_MAX]
  split_ifs with h1 h2 <;> constructor <;> intro h <;> first | omega | simp_all

/-- Claim C1: placing a robot at any in-bounds coordinates with any recognized
heading succeeds, and an immediate report returns exactly `"x,y,HEADING"` with
the heading name verbatim. -/
theorem c1_place_then_report (r : Robot) (x y : Int) (d : String)
    (hx0 : 0 ≤ x) (hx4 : x ≤ 4) (hy0 : 0 ≤ y) (hy4 : y ≤ 4)
    (hd : d ∈ ["NORTH", "SOUTH", "EAST", "WEST"]) :
    (place r x y d).1 = true ∧
      report (place r x y d).2 = toString x ++ "," ++ toString y ++ "," ++ d := by
  have hb := check_pos_in_bounds_true (z := 0) hx0 hx4 hy0 hy4
  simp only [List.mem_cons, List.not_mem_nil, or_false] at hd
  rcases hd with rfl | rfl | rfl | rfl <;>
    simp [place, hb, DIRVECTOR_FROM_COMPASS_DIRECTION, report,
      get_compass_direction_from_dirvec]

theorem c1_witness : (place robotInit 1 2 "EAST").1 = true ∧
    report (place robotInit 1 2 "EAST").2 = "1,2,EAST" := by
  have h := c1_place_then_report robotInit 1 2 "EAST" (by decide) (by decide)
    (by decide) (by decide) (by decide)
  exact ⟨h.1, by rw [h.2]; rfl⟩

/-- Claim C3: on a placed robot, `move` targets the current position plus the
heading vector; when that candidate is out of bounds the call fails with the
whole state unchanged, and when it is in bounds the call succeeds and only the
position is replaced by the candidate. -/
theorem c3_move_candidate (r : Robot) (h : r.placed = true) :
    (check_pos_in_bounds (vecAdd r.pos r.heading_vector) = false →
      move r = (false, r)) ∧
    (check_pos_in_bounds (vecAdd r.pos r.heading_vector) = true →
      move r = (true, { r with pos := vecAdd r.pos r.heading_vector })) := by
  constructor <;> intro hc <;> simp [move, h, hc]

theorem c3_witness :
    (check_pos_in_bounds (vecAdd ⟨4, 4, 0⟩ ⟨0, 1, 0⟩) = false →
      move ⟨⟨4, 4, 0⟩, ⟨0, 1, 0⟩, true⟩ = (false, ⟨⟨4, 4, 0⟩, ⟨0, 1, 0⟩, true⟩)) ∧
    (check_pos_in_bounds (vecAdd ⟨4, 4, 0⟩ ⟨0, 1, 0⟩) = true →
      move ⟨⟨4, 4, 0⟩, ⟨0, 1, 0⟩, true⟩ =
        (true, ⟨vecAdd ⟨4, 4, 0⟩ ⟨0, 1, 0⟩, ⟨0, 1, 0⟩, true⟩)) :=
  c3_move_candidate ⟨⟨4, 4, 0⟩, ⟨0, 1, 0⟩, true⟩ rfl

/-- Claim C4: `place` with out-of-bounds coordinates or an unrecognized
heading name fails and returns the prior state unchanged, `placed` flag
included. -/
theorem c4_place_failure (r : Robot) (x y : Int) (d : String)
    (h : x < 0 ∨ x > 4 ∨ y < 0 ∨ y > 4 ∨ d ∉ ["NORTH", "SOUTH", "EAST", "WEST"]) :
    place r x y d = (false, r) := by
  by_cases hb : check_pos_in_bounds ⟨x, y, 0⟩ = true
  · rw [check_pos_in_bounds_iff] at hb
    have hd : d ∉ ["NORTH", "SOUTH", "EAST", "WEST"] := by
      rcases h with h | h | h | h | h <;> first | omega | exact h
    have hdir : DIRVECTOR_FROM_COMPASS_DIRECTION d = none := by
      simp only [List.mem_cons, List.not_mem_nil, or_false, not_or] at hd
      simp [DIRVECTOR_FROM_COMPASS_DIRECTION, hd.1, hd.2.1, hd.2.2.1, hd.2.2.2]
    simp [place, hb, hdir, check_pos_in_bounds_true]
  · simp [place, hb]

theorem c4_witness : place robotInit 5 0 "NORTH" = (false, robotInit) :=
  c4_place_failure robotInit 5 0 "NORTH" (by decide)

/-- Claim C5: before any successful placement, `move`, `left` and `right` all
fail without changing the state, `placed` stays false, and `report` returns
the fixed not-placed message, which is never equal to any coordinate string of
the form `"x,y,heading"`. -/
theorem c5_unplaced_rejected (r : Robot) (h : r.placed = false) :
    move r = (false, r) ∧ left r = (false, r) ∧ right r = (false, r) ∧
    report r = notPlacedMsg ∧
    ∀ (x y : Int) (hd : String),
      report r ≠ toString x ++ "," ++ toString y ++ "," ++ hd := by
  refine ⟨by simp [move, h], by simp [left, h], by simp [right, h],
    by simp [report, h], ?_⟩
  intro x y hd heq
  have hmem : ',' ∈ (toString x ++ "," ++ toString y ++ "," ++ hd).data := by
    simp [data_append]
  rw [← heq] at hmem
  simp [report, h] at hmem
  have : ',' ∉ notPlacedMsg.data := by decide
  exact this hmem

theorem c5_witness : move robotInit = (false, robotInit) ∧
    left robotInit = (false, robotInit) ∧ right robotInit = (false, robotInit) ∧
    report robotInit = notPlacedMsg ∧
    ∀ (x y : Int) (hd : String),
      report robotInit ≠ toString x ++ "," ++ toString y ++ "," ++ hd :=
  c5_unplaced_rejected robotInit rfl

lemma compass_eq_north {v : Vec3}
    (h : get_compass_direction_from_dirvec v = "NORTH") : v = ⟨0, 1, 0⟩ := by
  unfold get_compass_direction_from_dirvec at h
  split_ifs at h <;> first | assumption | exact absurd h (by decide)

lemma compass_eq_south {v : Vec3}
    (h : get_compass_direction_from_dirvec v = "SOUTH") : v = ⟨0, -1, 0⟩ := by
  unfold get_compass_direction_from_dirvec at h
  split_ifs at h <;> first | assumption | exact absurd h (by decide)

lemma compass_eq_west {v : Vec3}
    (h : get_compass_direction_from_dirvec v = "WEST") : v = ⟨-1, 0, 0⟩ := by
  unfold get_compass_direction_from_dirvec at h
  split_ifs at h <;> first | assumption | exact absurd h (by decide)

lemma compass_eq_east {v : Vec3}
    (h : get_compass_direction_from_dirvec v = "EAST") : v = ⟨1, 0, 0⟩ := by
  unfold get_compass_direction_from_dirvec at h
  split_ifs at h <;> first | assumption | exact absurd h (by decide)

/-- Claim C6: on a placed robot, `left` then `right` (and `right` then `left`)
restores the whole state, four `left`s (or four `right`s) restore the whole
state, a single `left` steps the heading along the cycle
NORTH→WEST→SOUTH→EAST→NORTH while `right` steps the reverse cycle, and the
position is unchanged by every turn. -/
theorem c6_turn_algebra (r : Robot) (h : r.placed = true) :
    (right (left r).2).2 = r ∧ (left (right r).2).2 = r ∧
    (left (left (left (left r).2).2).2).2 = r ∧
    (right (right (right (right r).2).2).2).2 = r ∧
    (left r).2.pos = r.pos ∧ (right r).2.pos = r.pos ∧
    (get_compass_direction_from_dirvec r.heading_vector = "NORTH" →
      get_compass_direction_from_dirvec (left r).2.heading_vector = "WEST") ∧
    (get_compass_direction_from_dirvec r.heading_vector = "WEST" →
      get_compass_direction_from_dirvec (left r).2.heading_vector = "SOUTH") ∧
    (get_compass_direction_from_dirvec r.heading_vector = "SOUTH" →
      get_compass_direction_from_dirvec (left r).2.heading_vector = "EAST") ∧
    (get_compass_direction_from_dirvec r.heading_vector = "EAST" →
      get_compass_direction_from_dirvec (left r).2.heading_vector = "NORTH") ∧
    (get_compass_direction_from_dirvec r.heading_vector = "NORTH" →
      get_compass_direction_from_dirvec (right r).2.heading_vector = "EAST") ∧
    (get_compass_direction_from_dirvec r.heading_vector = "EAST" →
      get_compass_direction_from_dirvec (right r).2.heading_vector = "SOUTH") ∧
    (get_compass_direction_from_dirvec r.heading_vector = "SOUTH" →
      get_compass_direction_from_dirvec (right r).2.heading_vector = "WEST") ∧
    (get_compass_direction_from_dirvec r.heading_vector = "WEST" →
      get_compass_direction_from_dirvec (right r).2.heading_vector = "NORTH") := by
  refine ⟨?_, ?_, ?_, ?_, by simp [left, h], by simp [right, h],
    ?_, ?_, ?_, ?_, ?_, ?_, ?_, ?_⟩
  · obtain ⟨pos, ⟨a, b, c⟩, placed⟩ := r
    subst h
    simp [left, right, rotLeftVec, rotRightVec]
  · obtain ⟨pos, ⟨a, b, c⟩, placed⟩ := r
    subst h
    simp [left, right, rotLeftVec, rotRightVec]
  · obtain ⟨pos, ⟨a, b, c⟩, placed⟩ := r
    subst h
    simp [left, rotLeftVec]
  · obtain ⟨pos, ⟨a, b, c⟩, placed⟩ := r
    subst h
    simp [right, rotRightVec]
  · intro hc
    have hv := compass_eq_north hc
    simp [left, h, hv, rotLeftVec, get_compass_direction_from_dirvec]
  · intro hc
    have hv := compass_eq_west hc
    simp [left, h, hv, rotLeftVec, get_compass_direction_from_dirvec]
  · intro hc
    have hv := compass_eq_south hc
    simp [left, h, hv, rotLeftVec, get_compass_direction_from_dirvec]
  · intro hc
    have hv := compass_eq_east hc
    simp [left, h, hv, rotLeftVec, get_compass_direction_from_dirvec]
  · intro hc
    have hv := compass_eq_north hc
    simp [right, h, hv, rotRightVec, get_compass_direction_from_dirvec]
  · intro hc
    have hv := compass_eq_east hc
    simp [right, h, hv, rotRightVec, get_compass_direction_from_dirvec]
  · intro hc
    have hv := compass_eq_south hc
    simp [right, h, hv, rotRightVec, get_compass_direction_from_dirvec]
  · intro hc
    have hv := compass_eq_west hc
    simp [right, h, hv, rotRightVec, get_compass_direction_from_dirvec]

theorem c6_witness :
    (right (left ⟨⟨2, 2, 0⟩, ⟨0, 1, 0⟩, true⟩).2).2 = ⟨⟨2, 2, 0⟩, ⟨0, 1, 0⟩, true⟩ ∧
    (left ⟨⟨2, 2, 0⟩, ⟨0, 1, 0⟩, true⟩).2.pos = (⟨⟨2, 2, 0⟩, ⟨0, 1, 0⟩, true⟩ : Robot).pos :=
  ⟨(c6_turn_algebra ⟨⟨2, 2, 0⟩, ⟨0, 1, 0⟩, true⟩ rfl).1,
   (c6_turn_algebra ⟨⟨2, 2, 0⟩, ⟨0, 1, 0⟩, true⟩ rfl).2.2.2.2.1⟩

lemma dirvec_mem_headingVecs {d : String} {v : Vec3}
    (h : DIRVECTOR_FROM_COMPASS_DIRECTION d = some v) : v ∈ headingVecs := by
  unfold DIRVECTOR_FROM_COMPASS_DIRECTION at h
  split_ifs at h <;> simp_all [headingVecs]

lemma rotLeftVec_mem {v : Vec3} (h : v ∈ headingVecs) :
    rotLeftVec v ∈ headingVecs := by
  simp only [headingVecs, List.mem_cons, List.not_mem_nil, or_false] at h ⊢
  rcases h with rfl | rfl | rfl | rfl <;> simp [rotLeftVec]

lemma rotRightVec_mem {v : Vec3} (h : v ∈ headingVecs) :
    rotRightVec v ∈ headingVecs := by
  simp only [headingVecs, List.mem_cons, List.not_mem_nil, or_false] at h ⊢
  rcases h with rfl | rfl | rfl | rfl <;> simp [rotRightVec]

lemma applyOp_placed_mono (r : Robot) (op : Op) (h : r.placed = true) :
    (applyOp r op).placed = true := by
  cases op with
  | opPlace x y d =>
    cases hb : check_pos_in_bounds ⟨x, y, 0⟩ with
    | false => simp [applyOp, place, hb, h]
    | true =>
      cases hdir : DIRVECTOR_FROM_COMPASS_DIRECTION d with
      | none => simp [applyOp, place, hb, hdir, h]
      | some hv => simp [applyOp, place, hb, hdir]
  | opMove =>
    cases hb : check_pos_in_bounds (vecAdd r.pos r.heading_vector) with
    | false => simp [applyOp, move, hb, h]
    | true => simp [applyOp, move, hb, h]
  | opLeft => simp [applyOp, left, h]
  | opRight => simp [applyOp, right, h]
  | opReport => exact h

lemma applyOp_preserves_bounds (r : Robot) (op : Op)
    (hInv : r.placed = true → check_pos_in_bounds r.pos = true) :
    (applyOp r op).placed = true → check_pos_in_bounds (applyOp r op).pos = true := by
  cases op with
  | opPlace x y d =>
    cases hb : check_pos_in_bounds ⟨x, y, 0⟩ with
    | false => simpa [applyOp, place, hb] using hInv
    | true =>
      cases hdir : DIRVECTOR_FROM_COMPASS_DIRECTION d with
      | none => simpa [applyOp, place, hb, hdir] using hInv
      | some hv => simp [applyOp, place, hb, hdir]
  | opMove =>
    cases hp : r.placed with
    | false => simp [applyOp, move, hp]
    | true =>
      cases hb : check_pos_in_bounds (vecAdd r.pos r.heading_vector) with
      | false => simpa [applyOp, move, hp, hb] using hInv
      | true => simp [applyOp, move, hp, hb]
  | opLeft =>
    cases hp : r.placed with
    | false => simp [applyOp, left, hp]
    | true => simpa [applyOp, left, hp] using hInv hp
  | opRight =>
    cases hp : r.placed with
    | false => simp [applyOp, right, hp]
    | true => simpa [applyOp, right, hp] using hInv hp
  | opReport => exact hInv

lemma reachable_bounds (r : Robot) (hr : Reachable r) :
    r.placed = true → check_pos_in_bounds r.pos = true := by
  induction hr with
  | init => intro h; exact absurd h (by decide)
  | step r op hre ih => exact applyOp_preserves_bounds r op ih

/-- Claim C2: every reachable placed state has its position within the grid
bounds [0,4] on both axes; each operation preserves that invariant from any
state satisfying it; and no operation ever resets `placed` from true to
false. -/
theorem c2_placed_bounds_invariant :
    (∀ r : Robot, Reachable r → r.placed = true →
      0 ≤ r.pos.x ∧ r.pos.x ≤ 4 ∧ 0 ≤ r.pos.y ∧ r.pos.y ≤ 4) ∧
    (∀ (r : Robot) (op : Op),
      (r.placed = true → check_pos_in_bounds r.pos = true) →
      (applyOp r op).placed = true → check_pos_in_bounds (applyOp r op).pos = true) ∧
    (∀ (r : Robot) (op : Op), r.placed = true → (applyOp r op).placed = true) := by
  refine ⟨?_, applyOp_preserves_bounds, applyOp_placed_mono⟩
  intro r hr hp
  have hb := reachable_bounds r hr hp
  obtain ⟨⟨x, y, z⟩, hv, p⟩ := r
  exact check_pos_in_bounds_iff.mp hb

theorem c2_witness :
    ((applyOp robotInit (Op.opPlace 3 4 "WEST")).placed = true →
      0 ≤ (applyOp robotInit (Op.opPlace 3 4 "WEST")).pos.x ∧
      (applyOp robotInit (Op.opPlace 3 4 "WEST")).pos.x ≤ 4 ∧
      0 ≤ (applyOp robotInit (Op.opPlace 3 4 "WEST")).pos.y ∧
      (applyOp robotInit (Op.opPlace 3 4 "WEST")).pos.y ≤ 4) ∧
    (robotInit.placed = true → (applyOp robotInit Op.opMove).placed = true) :=
  ⟨c2_placed_bounds_invariant.1 _ (Reachable.step robotInit _ Reachable.init),
   c2_placed_bounds_invariant.2.2 robotInit Op.opMove⟩

lemma reachable_heading (r : Robot) (hr : Reachable r) :
    r.placed = true → r.heading_vector ∈ headingVecs := by
  induction hr with
  | init => intro h; exact absurd h (by decide)
  | step r op hre ih =>
    cases op with
    | opPlace x y d =>
      cases hb : check_pos_in_bounds ⟨x, y, 0⟩ with
      | false => simpa [applyOp, place, hb] using ih
      | true =>
        cases hdir : DIRVECTOR_FROM_COMPASS_DIRECTION d with
        | none => simpa [applyOp, place, hb, hdir] using ih
        | some hv =>
          simpa [applyOp, place, hb, hdir] using dirvec_mem_headingVecs hdir
    | opMove =>
      cases hp : r.placed with
      | false => simp [applyOp, move, hp]
      | true =>
        cases hb : check_pos_in_bounds (vecAdd r.pos r.heading_vector) with
        | false => simpa [applyOp, move, hp, hb] using ih
        | true => simpa [applyOp, move, hp, hb] using ih hp
    | opLeft =>
      cases hp : r.placed with
      | false => simp [applyOp, left, hp]
      | true => simpa [applyOp, left, hp] using rotLeftVec_mem (ih hp)
    | opRight =>
      cases hp : r.placed with
      | false => simp [applyOp, right, hp]
      | true => simpa [applyOp, right, hp] using rotRightVec_mem (ih hp)
    | opReport => exact ih

/-- Claim C10: in every reachable placed state the heading vector is one of
the four integer unit vectors, so `get_compass_direction_from_dirvec` never
yields "ERROR" there and `report` always ends in one of the four compass
names. -/
theorem c10_heading_always_cardinal (r : Robot) (hr : Reachable r)
    (hp : r.placed = true) :
    r.heading_vector ∈ headingVecs ∧
    get_compass_direction_from_dirvec r.heading_vector ≠ "ERROR" ∧
    ∃ name ∈ ["NORTH", "SOUTH", "WEST", "EAST"],
      report r = toString r.pos.x ++ "," ++ toString r.pos.y ++ "," ++ name := by
  have hm := reachable_heading r hr hp
  refine ⟨hm, ?_, ?_⟩ <;>
    simp only [headingVecs, List.mem_cons, List.not_mem_nil, or_false] at hm
  · rcases hm with h | h | h | h <;>
      simp [get_compass_direction_from_dirvec, h]
  · rcases hm with h | h | h | h
    · exact ⟨"NORTH", by decide, by simp [report, hp, h, get_compass_direction_from_dirvec]⟩
    · exact ⟨"SOUTH", by decide, by simp [report, hp, h, get_compass_direction_from_dirvec]⟩
    · exact ⟨"WEST", by decide, by simp [report, hp, h, get_compass_direction_from_dirvec]⟩
    · exact ⟨"EAST", by decide, by simp [report, hp, h, get_compass_direction_from_dirvec]⟩

theorem c10_witness :
    (applyOp (applyOp robotInit (Op.opPlace 0 0 "NORTH")) Op.opLeft).heading_vector
      ∈ headingVecs ∧
    get_compass_direction_from_dirvec
      (applyOp (applyOp robotInit (Op.opPlace 0 0 "NORTH")) Op.opLeft).heading_vector
      ≠ "ERROR" :=
  let h := c10_heading_always_cardinal _
    (Reachable.step _ _ (Reachable.step robotInit _ Reachable.init)) (by decide)
  ⟨h.1, h.2.1⟩

/-- Claim C7 counterexample: the code maps EAST to the displacement (1,0,0)
and WEST to (-1,0,0), not the other way around as the claim states. -/
theorem c7_counterexample :
    DIRVECTOR_FROM_COMPASS_DIRECTION "EAST" = some ⟨1, 0, 0⟩ ∧
    DIRVECTOR_FROM_COMPASS_DIRECTION "EAST" ≠ some ⟨-1, 0, 0⟩ ∧
    DIRVECTOR_FROM_COMPASS_DIRECTION "WEST" = some ⟨-1, 0, 0⟩ ∧
    DIRVECTOR_FROM_COMPASS_DIRECTION "WEST" ≠ some ⟨1, 0, 0⟩ := by decide

/-- Claim C7 (amended): NORTH, SOUTH, WEST, EAST map to the unit displacement
vectors (0,1), (0,-1), (-1,0), (1,0) respectively — so `move` displaces by
(1,0) when heading EAST and by (-1,0) when heading WEST — and a successful
`move` adds exactly the stored heading vector to the position. -/
theorem c7_heading_vectors :
    DIRVECTOR_FROM_COMPASS_DIRECTION "NORTH" = some ⟨0, 1, 0⟩ ∧
    DIRVECTOR_FROM_COMPASS_DIRECTION "SOUTH" = some ⟨0, -1, 0⟩ ∧
    DIRVECTOR_FROM_COMPASS_DIRECTION "WEST" = some ⟨-1, 0, 0⟩ ∧
    DIRVECTOR_FROM_COMPASS_DIRECTION "EAST" = some ⟨1, 0, 0⟩ ∧
    ∀ r : Robot, r.placed = true → (move r).1 = true →
      (move r).2.pos = vecAdd r.pos r.heading_vector := by
  refine ⟨by decide, by decide, by decide, by decide, ?_⟩
  intro r hp hs
  cases hb : check_pos_in_bounds (vecAdd r.pos r.heading_vector) with
  | false => simp [move, hp, hb] at hs
  | true => simp [move, hp, hb]

theorem c7_witness :
    (move ⟨⟨0, 0, 0⟩, ⟨1, 0, 0⟩, true⟩).2.pos = vecAdd ⟨0, 0, 0⟩ ⟨1, 0, 0⟩ :=
  c7_heading_vectors.2.2.2.2 ⟨⟨0, 0, 0⟩, ⟨1, 0, 0⟩, true⟩ rfl (by decide)

lemma string_eta (s : String) : (⟨s.data⟩ : String) = s := by cases s; rfl

lemma space_data : (" " : String).data = [' '] := rfl

lemma two_space_data : ("  " : String).data = [' ', ' '] := rfl

lemma splitOnChar_no_sep (sep : Char) (l : List Char) (h : sep ∉ l) :
    splitOnChar sep l = [l] := by
  induction l with
  | nil => rfl
  | cons c cs ih =>
    simp only [List.mem_cons, not_or] at h
    have hc : ¬ c = sep := fun he => h.1 he.symm
    simp [splitOnChar, hc, ih h.2]

lemma splitOnChar_append_sep (sep : Char) (v rest : List Char) (h : sep ∉ v) :
    splitOnChar sep (v ++ sep :: rest) = v :: splitOnChar sep rest := by
  induction v with
  | nil => simp [splitOnChar]
  | cons c cs ih =>
    simp only [List.mem_cons, not_or] at h
    have hc : ¬ c = sep := fun he => h.1 he.symm
    simp [splitOnChar, hc, ih h.2]

lemma parse_tokens_extra (v p : String) (ts ts' : List String) :
    parse_command_tokens (v :: p :: ts) = parse_command_tokens (v :: p :: ts') := by
  unfold parse_command_tokens
  rfl

lemma splitOnChar_cons_sep (sep : Char) (cs : List Char) :
    splitOnChar sep (sep :: cs) = [] :: splitOnChar sep cs := by
  simp [splitOnChar]

lemma parse_trailing (v p rest : String) (hv : ' ' ∉ v.data) (hp : ' ' ∉ p.data) :
    parse_command_input (v ++ " " ++ p ++ " " ++ rest) =
      parse_command_input (v ++ " " ++ p) := by
  unfold parse_command_input splitStr
  have hd1 : (v ++ " " ++ p ++ " " ++ rest).data
      = v.data ++ (' ' :: (p.data ++ (' ' :: rest.data))) := by
    simp [data_append, space_data]
  have hd2 : (v ++ " " ++ p).data = v.data ++ (' ' :: p.data) := by
    simp [data_append, space_data]
  rw [hd1, hd2, splitOnChar_append_sep ' ' v.data _ hv,
    splitOnChar_append_sep ' ' p.data rest.data hp,
    splitOnChar_append_sep ' ' v.data p.data hv,
    splitOnChar_no_sep ' ' p.data hp]
  simp only [List.map_cons]
  exact parse_tokens_extra _ _ _ _

lemma parse_tokens_empty_pblock (v : String) (ts : List String) :
    parse_command_tokens (v :: "" :: ts) = ("error", []) := by
  simp only [parse_command_tokens]
  cases hfind : COMMANDS_AND_ARGS.find? (fun c => v = c.1) with
  | none => rfl
  | some vp =>
    have hmem := List.mem_of_find?_eq_some hfind
    fin_cases hmem <;> rfl

lemma parse_double_space (v rest : String) (h : ' ' ∉ v.data) :
    parse_command_input (v ++ "  " ++ rest) = ("error", []) := by
  unfold parse_command_input splitStr
  have hd : (v ++ "  " ++ rest).data = v.data ++ (' ' :: (' ' :: rest.data)) := by
    simp [data_append, two_space_data]
  rw [hd, splitOnChar_append_sep ' ' v.data _ h, splitOnChar_cons_sep]
  simp only [List.map_cons]
  rw [string_eta]
  exact parse_tokens_empty_pblock v _

/-- Claim C8 counterexample: the line `"PLACE 1,2,NORTH junk"` carries extra
whitespace-separated text after the parameter block, yet the parser accepts it
rather than failing. -/
theorem c8_counterexample :
    parse_command_input "PLACE 1,2,NORTH junk" =
      ("PLACE", [.pint 1, .pint 2, .pstr "NORTH"]) ∧
    parse_command_input "PLACE 1,2,NORTH junk" ≠ ("error", []) := by decide

/-- Claim C8 (amended): the line is split on single spaces into a verb and an
optional parameter block which is split on commas; spaces around commas and
more than a single space after the verb are parse failures; but additional
whitespace-separated text after the parameter block is silently ignored, not
rejected. -/
theorem c8_split_behavior :
    (∀ v p rest : String, ' ' ∉ v.data → ' ' ∉ p.data →
      parse_command_input (v ++ " " ++ p ++ " " ++ rest) =
        parse_command_input (v ++ " " ++ p)) ∧
    (∀ v rest : String, ' ' ∉ v.data →
      parse_command_input (v ++ "  " ++ rest) = ("error", [])) ∧
    parse_command_input "PLACE 1, 2, NORTH" = ("error", []) ∧
    parse_command_input "PLACE 1 ,2,NORTH" = ("error", []) :=
  ⟨parse_trailing, parse_double_space, by decide, by decide⟩

theorem c8_witness :
    parse_command_input ("PLACE" ++ " " ++ "1,2,NORTH" ++ " " ++ "junk2") =
      parse_command_input ("PLACE" ++ " " ++ "1,2,NORTH") :=
  c8_split_behavior.1 "PLACE" "1,2,NORTH" "junk2" (by decide) (by decide)

lemma castAll_paramsTyped :
    ∀ (ts : List PType) (ss : List String) (ps : List Param),
      castAll ts ss = some ps → paramsTyped ts ps := by
  intro ts
  induction ts with
  | nil =>
    intro ss ps h
    cases ss with
    | nil =>
      simp only [castAll, Option.some.injEq] at h
      subst h
      trivial
    | cons s ss => simp [castAll] at h
  | cons t ts ih =>
    intro ss ps h
    cases ss with
    | nil => simp [castAll] at h
    | cons s ss =>
      cases t with
      | tint =>
        cases hq : pythonInt s with
        | none => simp [castAll, castParam, hq] at h
        | some n =>
          cases hrest : castAll ts ss with
          | none => simp [castAll, castParam, hq, hrest] at h
          | some qs =>
            simp [castAll, castParam, hq, hrest] at h
            subst h
            exact ih ss qs hrest
      | tstr =>
        cases hrest : castAll ts ss with
        | none => simp [castAll, castParam, hrest] at h
        | some qs =>
          simp only [castAll, castParam, hrest, Option.some.injEq] at h
          subst h
          exact ih ss qs hrest

/-- Claim C9: for every input line the parser returns either the sentinel
`("error", [])` or a recognized verb from the command table together with a
parameter list of exactly the required length and types; the embedded Python
integer conversion rejects non-integer numeric text such as `"1.0"`; and the
parser is a pure function of the line, so parsing never alters robot state. -/
theorem c9_parse_totality :
    (∀ s : String,
      parse_command_input s = ("error", []) ∨
      ∃ spec ∈ COMMANDS_AND_ARGS, (parse_command_input s).1 = spec.1 ∧
        paramsTyped spec.2 (parse_command_input s).2) ∧
    pythonInt "1.0" = none := by
  refine ⟨?_, by decide⟩
  intro s
  unfold parse_command_input
  cases splitStr ' ' s with
  | nil => left; rfl
  | cons v0 rest =>
    cases hfind : COMMANDS_AND_ARGS.find? (fun c => v0 = c.1) with
    | none => left; simp [parse_command_tokens, hfind]
    | some vp =>
      obtain ⟨verb, types⟩ := vp
      have hmem := List.mem_of_find?_eq_some hfind
      cases rest with
      | nil =>
        by_cases h0 : types.length > 0
        · left; simp [parse_command_tokens, hfind, h0]
        · right
          have ht : types = [] := List.eq_nil_of_length_eq_zero (by omega)
          subst ht
          exact ⟨(verb, []), hmem, by simp [parse_command_tokens, hfind], by
            simp [parse_command_tokens, hfind]; trivial⟩
      | cons pblock tl =>
        by_cases h0 : types.length = 0
        · left; simp [parse_command_tokens, hfind, h0]
        · by_cases hlen : (splitStr ',' pblock).length ≠ types.length
          · left; simp [parse_command_tokens, hfind, h0, hlen]
          · cases hcast : castAll types (splitStr ',' pblock) with
            | none => left; simp [parse_command_tokens, hfind, h0, hlen, hcast]
            | some ps =>
              right
              refine ⟨(verb, types), hmem, ?_, ?_⟩
              · simp [parse_command_tokens, hfind, h0, hlen, hcast]
              · have : parse_command_tokens (v0 :: pblock :: tl) = (verb, ps) := by
                  simp [parse_command_tokens, hfind, h0, hlen, hcast]
                rw [this]
                exact castAll_paramsTyped types _ ps hcast
